import Mathlib

set_option maxRecDepth 4000

/-!
Verification of the TarTape archive engine against its specification.

The definitions below are a shallow embedding of the Python sources of the
repository (src/tartape/...).  Bytes are modelled as natural numbers below
256, buffers as lists of such numbers, Python exceptions as an explicit
error type threaded through `Except`, and the filesystem as a finite map
from relative paths to probe results.  Each definition is translated from
the function of the same name in the source; comments give the file and
line of origin.
-/

namespace Tartape

/-- Python exception kinds raised by the translated code. -/
inductive PyError where
  | valueError : String → PyError
  | runtimeError : String → PyError
  | tarIntegrityError : String → PyError
  | attributeError : String → PyError
deriving DecidableEq

/-- UTF-8 encoding of a single character (the byte sequence produced by
Python str.encode for that code point). -/
def utf8EncodeChar (c : Char) : List Nat :=
  let n := c.toNat
  if n < 128 then [n]
  else if n < 2048 then [192 + n / 64, 128 + n % 64]
  else if n < 65536 then [224 + n / 4096, 128 + (n / 64) % 64, 128 + n % 64]
  else [240 + n / 262144, 128 + (n / 4096) % 64, 128 + (n / 64) % 64, 128 + n % 64]

/-- Byte encoding of a character sequence, as Python value.encode of a str. -/
def utf8Bytes (cs : List Char) : List Nat :=
  cs.flatMap utf8EncodeChar

/-- UTF-8 byte length of a character sequence, as Python len of the encoding. -/
def utf8Len (cs : List Char) : Nat :=
  (utf8Bytes cs).length

/-- Python slice assignment buf[start:stop] = data on a bytearray
(the replaced region need not have the length of data). -/
def sliceAssign (buf : List Nat) (start stop : Nat) (data : List Nat) : List Nat :=
  buf.take start ++ data ++ buf.drop stop

/-- Little-endian base-8 digit list computed with explicit fuel (the fuel
argument only makes the recursion structural; with fuel at least n the
result is Nat.digits 8 n). -/
def octDigitsAux : Nat → Nat → List Nat
  | 0, _ => []
  | _ + 1, 0 => []
  | fuel + 1, n + 1 => (n + 1) % 8 :: octDigitsAux fuel ((n + 1) / 8)

/-- Octal digit characters of a number as ASCII byte values:
Python oct(value) with the 0o stripped. -/
def octalByteDigits (n : Nat) : List Nat :=
  if n = 0 then [48] else (octDigitsAux n n).reverse.map (fun d => 48 + d)

/-- Python str.zfill padding with ASCII zeros on the left. -/
def zfillBytes (width : Nat) (ds : List Nat) : List Nat :=
  List.replicate (width - ds.length) 48 ++ ds

/-- Big-endian byte string of a value, as Python int.to_bytes(k, "big")
(defined for values below 256 ^ k; set_size guards the call). -/
def toBytesBE : Nat → Nat → List Nat
  | 0, _ => []
  | k + 1, v => toBytesBE k (v / 256) ++ [v % 256]

/-- Value of a big-endian byte string. -/
def ofBytesBE (bs : List Nat) : Nat :=
  bs.foldl (fun a b => a * 256 + b) 0

/-- Value of a big-endian string of ASCII octal digit characters. -/
def ofOctalChars (ds : List Nat) : Nat :=
  ds.foldl (fun a d => a * 8 + (d - 48)) 0

/-- Inventory record of one archive member: src/tartape/models.py, class Track.
Offsets are the values assigned by the layout pass (null before it). -/
structure Track where
  arc_path : String := ""
  rel_path : String := ""
  size : Nat := 0
  mtime : Nat := 0
  mode : Nat := 0
  uid : Nat := 0
  gid : Nat := 0
  uname : String := ""
  gname : String := ""
  is_dir : Bool := false
  is_symlink : Bool := false
  linkname : String := ""
  start_offset : Nat := 0
  end_offset : Nat := 0
deriving DecidableEq

/-- Validity of a split position: src/tartape/header.py lines 44-53, the body
of the scan loop of TarHeader._split_path (position i holds a slash, the part
left of it encodes to at most 155 bytes, the part right of it to at most 100). -/
def validSplit (path : List Char) (i : Nat) : Bool :=
  (path.getD i ' ' == '/') && (utf8Len (path.take i) ≤ 155) && (utf8Len (path.drop (i + 1)) ≤ 100)

/-- Result of the scan loop of TarHeader._split_path: the loop runs i over all
positions in ascending order and overwrites best_split_index at every valid
one, so it keeps the rightmost valid split. -/
def bestSplitIndex (path : List Char) : Option Nat :=
  (List.range path.length).foldl (fun best i => if validSplit path i then some i else best) none

/-- TarHeader._split_path: src/tartape/header.py lines 25-60.  Returns
(name, prefix). -/
def split_path (path : List Char) : Except PyError (List Char × List Char) :=
  if utf8Len path ≤ 100 then Except.ok (path, [])
  else
    match bestSplitIndex path with
    | none => Except.error (PyError.valueError "Path is too long or cannot be split to fit USTAR limits")
    | some i => Except.ok (path.drop (i + 1), path.take i)

/-- TarHeader.set_string: src/tartape/header.py lines 91-99. -/
def set_string (buf : List Nat) (offset field_width : Nat) (value : List Char) :
    Except PyError (List Nat) :=
  let data := utf8Bytes value
  if data.length > field_width then
    Except.error (PyError.valueError "value too long for field")
  else Except.ok (sliceAssign buf offset (offset + data.length) data)

/-- TarHeader.set_octal: src/tartape/header.py lines 101-122.  Writes the
octal digits padded to field_width - 1 characters plus a NUL terminator. -/
def set_octal (buf : List Nat) (offset field_width value : Nat) :
    Except PyError (List Nat) :=
  let octal_string := octalByteDigits value
  let max_digits := field_width - 1
  if octal_string.length > max_digits then
    Except.error (PyError.valueError "Number too large for octal field width")
  else Except.ok (sliceAssign buf offset (offset + field_width) (zfillBytes max_digits octal_string ++ [0]))

/-- TarHeader.set_size: src/tartape/header.py lines 62-89.  Octal form up to
LIMIT_USTAR = 8589934591 = 2 ^ 33 - 1, GNU base-256 form above it (byte 124
set to 0x80, bytes 125-135 the big-endian value; int.to_bytes raises
OverflowError for values of 2 ^ 88 and above). -/
def set_size (buf : List Nat) (size : Nat) : Except PyError (List Nat) :=
  if size ≤ 8589934591 then set_octal buf 124 12 size
  else if 256 ^ 11 ≤ size then Except.error (PyError.valueError "int too big to convert")
  else
    let buf2 := sliceAssign buf 124 125 [128]
    Except.ok (sliceAssign buf2 125 136 (toBytesBE 11 size))

/-- TarHeader.set_bytes: src/tartape/header.py lines 124-129. -/
def set_bytes (buf : List Nat) (offset : Nat) (value : List Nat) :
    Except PyError (List Nat) :=
  if offset + value.length > 512 then
    Except.error (PyError.valueError "Write overflow")
  else Except.ok (sliceAssign buf offset (offset + value.length) value)

/-- TarHeader.calculate_checksum: src/tartape/header.py lines 131-155.
Replaces the checksum field by spaces, sums the buffer, writes the sum as
six zero-padded octal digits, a NUL and a space. -/
def calculate_checksum (buf : List Nat) : List Nat :=
  let spaced := sliceAssign buf 148 156 (List.replicate 8 32)
  let total := spaced.foldl (fun a b => a + b) 0
  let filled := zfillBytes 6 (octalByteDigits total)
  sliceAssign spaced 148 156 (filled ++ [0, 32])

/-- TarHeader.build: src/tartape/header.py lines 157-198.  The source
computes full_arcpath (the arc_path with a trailing slash appended for
directories) but then passes the bare self.entry.arc_path to _split_path;
the translation keeps that behaviour, binding the unused value to
an underscore name exactly as the dead local in the source. -/
def build (e : Track) : Except PyError (List Nat) := do
  let _full_arcpath :=
    if e.is_dir && !(e.arc_path.endsWith "/") then e.arc_path ++ "/" else e.arc_path
  let np ← split_path e.arc_path.data
  let buf0 : List Nat := List.replicate 512 0
  let buf1 ← set_string buf0 0 100 np.1
  let buf2 ← set_string buf1 345 155 np.2
  let buf3 ← set_octal buf2 100 8 e.mode
  let buf4 ← set_octal buf3 108 8 e.uid
  let buf5 ← set_octal buf4 116 8 e.gid
  let buf6 ← set_size buf5 e.size
  let buf7 ← set_octal buf6 136 12 e.mtime
  let buf8 ← set_string buf7 265 32 e.uname.data
  let buf9 ← set_string buf8 297 32 e.gname.data
  let tfl ←
    (if e.is_dir then Except.ok (buf9, [53])
     else if e.is_symlink then do
       let b ← set_string buf9 157 100 e.linkname.data
       Except.ok (b, [50])
     else Except.ok (buf9, [48]))
  let buf10 ← set_bytes tfl.1 156 tfl.2
  let buf11 ← set_string buf10 257 6 ['u', 's', 't', 'a', 'r', '\x00']
  let buf12 ← set_string buf11 263 2 ['0', '0']
  let buf13 := calculate_checksum buf12
  if buf13.length ≠ 512 then Except.error (PyError.valueError "Header is not 512 bytes long.")
  else Except.ok buf13

/-- TAR_BLOCK_SIZE: src/tartape/constants.py. -/
def TAR_BLOCK_SIZE : Nat := 512

/-- TAR_FOOTER_SIZE: src/tartape/constants.py. -/
def TAR_FOOTER_SIZE : Nat := 1024

/-- Track.has_content: src/tartape/models.py lines 55-58. -/
def has_content (t : Track) : Bool :=
  !(t.is_dir || t.is_symlink)

/-- Track.padding_size: src/tartape/models.py lines 80-84. -/
def padding_size (t : Track) : Nat :=
  if !(has_content t) || t.size = 0 then 0
  else (TAR_BLOCK_SIZE - t.size % TAR_BLOCK_SIZE) % TAR_BLOCK_SIZE

/-- Track.total_block_size: src/tartape/models.py lines 86-89. -/
def total_block_size (t : Track) : Nat :=
  TAR_BLOCK_SIZE + (if !(t.is_dir || t.is_symlink) then t.size else 0) + padding_size t

/-- Offset-assignment loop of TapeRecorder.commit: src/tartape/recorder.py
lines 74-80.  Walks the tracks in the order given (the database delivers
them in ascending arc_path order), assigning start_offset = running offset
and end_offset = running offset + total_block_size; returns the rewritten
tracks and the final running offset. -/
def layoutOffsets : Nat → List Track → List Track × Nat
  | off, [] => ([], off)
  | off, t :: ts =>
    let t2 := { t with start_offset := off, end_offset := off + total_block_size t }
    let r := layoutOffsets (off + total_block_size t) ts
    (t2 :: r.1, r.2)

/-- Layout portion of TapeRecorder.commit: src/tartape/recorder.py lines
69-86.  Returns the tracks with offsets assigned and the stored total_size
= final offset + TAR_FOOTER_SIZE. -/
def commitLayout (ts : List Track) : List Track × Nat :=
  let r := layoutOffsets 0 ts
  (r.1, r.2 + TAR_FOOTER_SIZE)

/-- Exact fraction num / den standing for a Python float (every IEEE
double is such a fraction; den is kept positive in every use). -/
structure PyFloat where
  num : Int
  den : Nat := 1
deriving DecidableEq

/-- Embedding of a whole number of seconds. -/
def PyFloat.ofNat (n : Nat) : PyFloat :=
  { num := Int.ofNat n, den := 1 }

/-- Float subtraction, by cross multiplication. -/
def PyFloat.sub (a b : PyFloat) : PyFloat :=
  { num := a.num * Int.ofNat b.den - b.num * Int.ofNat a.den, den := a.den * b.den }

/-- Python abs on a float. -/
def PyFloat.abs (a : PyFloat) : PyFloat :=
  { num := Int.ofNat a.num.natAbs, den := a.den }

/-- Strict comparison a < b of two fractions with positive denominators. -/
def PyFloat.lt (a b : PyFloat) : Bool :=
  a.num * Int.ofNat b.den < b.num * Int.ofNat a.den

/-- Result of an lstat probe of one on-disk path, together with the readable
body bytes of the file.  st_mtime is the float-second modification time of
the stat result. -/
structure DiskEntry where
  st_mtime : PyFloat := { num := 0 }
  st_size : Nat := 0
  st_mode : Nat := 0
  linkname : String := ""
  content : List Nat := []
deriving DecidableEq

/-- The live filesystem under the tape root, keyed by rel_path: a missing
key models FileNotFoundError from lstat or open. -/
def Disk : Type := String → Option DiskEntry

/-- Python int() applied to a float: truncation toward zero (Int.div is
the rounding-toward-zero division). -/
def pyInt (q : PyFloat) : Int :=
  Int.tdiv q.num (Int.ofNat q.den)

/-- The dictionary built by TapePlayer._get_track_status: src/tartape/player.py
lines 73-86.  present models the exists key; when the probe raises
FileNotFoundError the source returns a dictionary without a mode key, which
no caller reads in that case, so mode is 0 there. -/
structure TrackStatus where
  size : Nat
  mtime : Int
  present : Bool
  mode : Nat
deriving DecidableEq

/-- TapePlayer._get_track_status: src/tartape/player.py lines 73-86.  When
the path exists, p.lstat() succeeds and the very next line calls
TarEntryFactory._extract_metadata(st) — but the TarEntryFactory imported
from src/tartape/factory.py (player.py line 6) defines only inspect and
create_track, no _extract_metadata (an identically named method exists
only on the unrelated legacy class in the package init, which player.py
never imports), so the call raises AttributeError; the surrounding try
catches only FileNotFoundError (player.py line 85), so the AttributeError
escapes.  When the path is missing, lstat raises FileNotFoundError and the
except branch returns the exists-False dictionary. -/
def get_track_status (disk : Disk) (t : Track) : Except PyError TrackStatus :=
  match disk t.rel_path with
  | some _ =>
    Except.error (PyError.attributeError
      "type object TarEntryFactory has no attribute _extract_metadata")
  | none => Except.ok { size := 0, mtime := 0, present := false, mode := 0 }

/-- os.readlink of the path of a track, as called by
TapePlayer._assert_track_integrity: src/tartape/player.py line 54. -/
def readlinkAt (disk : Disk) (rel : String) : String :=
  ((disk rel).map (fun st => st.linkname)).getD ""

/-- TapePlayer._assert_track_integrity: src/tartape/player.py lines 31-71.
The AttributeError from _get_track_status propagates through the bind; the
comparison branches below are kept as in the source although, with
_get_track_status only ever returning an exists-False status, they are
unreachable for present paths. -/
def assert_track_integrity (disk : Disk) (t : Track) : Except PyError Unit := do
  let status ← get_track_status disk t
  if !status.present then
    Except.error (PyError.runtimeError "Integrity FAILED: File missing")
  else if t.is_dir then
    (if t.rel_path = "" ∨ t.rel_path = "." then Except.ok ()
     else if status.mtime ≠ (t.mtime : Int) then
       Except.error (PyError.runtimeError "Integrity FAILED: Subfolder structure modified")
     else Except.ok ())
  else if t.is_symlink then
    (if readlinkAt disk t.rel_path ≠ t.linkname then
       Except.error (PyError.runtimeError "Integrity FAILED: link points to another location")
     else Except.ok ())
  else if status.mtime ≠ (t.mtime : Int) then
    Except.error (PyError.runtimeError "File modified (mtime)")
  else if status.size ≠ t.size then
    Except.error (PyError.runtimeError "File size changed")
  else if status.mode ≠ t.mode then
    Except.error (PyError.runtimeError "File mode changed")
  else Except.ok ()

/-- TapePlayer._verify: src/tartape/player.py lines 21-29.  Runs the track
assertion over every track in tape order and returns True when the loop
completes. -/
def verify (disk : Disk) : List Track → Except PyError Bool
  | [] => Except.ok true
  | t :: ts => do
    let _ ← assert_track_integrity disk t
    verify disk ts

/-- TapePlayer._verify_resume_point: src/tartape/player.py lines 110-141.
Offsets are naturals here, so the negative-offset guard of the source
cannot fire. -/
def verify_resume_point (disk : Disk) (tracks : List Track) (total_size offset : Nat) :
    Except PyError Unit :=
  if total_size ≤ offset then
    Except.error (PyError.valueError "Offset is beyond the total tape size")
  else if total_size - 1024 ≤ offset then Except.ok ()
  else
    match tracks.find? (fun t => t.start_offset ≤ offset && offset < t.end_offset) with
    | some t => assert_track_integrity disk t
    | none => Except.error (PyError.runtimeError "No track found for offset despite being within bounds")

/-- Event stream vocabulary: src/tartape/schemas.py lines 114-147.
FileStartMetadata carries only start_offset; FILE_DATA carries the bytes
and optionally the owning entry (none for the footer); FILE_END carries
end_offset and whether an md5sum is present (the digest value itself is
not modelled). -/
inductive TarEvent where
  | fileStart (arc : String) (start_offset : Nat)
  | fileData (data : List Nat) (arc : Option String)
  | fileEnd (arc : String) (end_offset : Nat) (md5Present : Bool)
  | tapeCompleted
deriving DecidableEq

/-- TarStreamGenerator._entry_has_content: src/tartape/stream.py lines 91-92. -/
def entry_has_content (e : Track) : Bool :=
  !e.is_dir && !e.is_symlink

/-- TarStreamGenerator._emit_header: src/tartape/stream.py lines 94-111. -/
def emit_header (e : Track) (global_skip : Nat) : Except PyError (List TarEvent) :=
  let header_start := e.start_offset
  let header_end := header_start + TAR_BLOCK_SIZE
  if header_end ≤ global_skip then Except.ok []
  else do
    let hb ← build e
    let header_bytes := hb.drop (global_skip - header_start)
    Except.ok (if header_bytes.isEmpty then [] else [TarEvent.fileData header_bytes (some e.arc_path)])

/-- TarStreamGenerator._validate_integrity: src/tartape/stream.py lines
193-219.  Note the source compares the float st_mtime against the stored
integer mtime with a 1e-4 tolerance and raises RuntimeError on the mtime
and size mismatches; only the unreadable-path case raises TarIntegrityError. -/
def validate_integrity (disk : Disk) (e : Track) : Except PyError Unit :=
  match disk e.rel_path with
  | none => Except.error (PyError.tarIntegrityError "Archivo inaccesible")
  | some st =>
    if PyFloat.lt { num := 1, den := 10000 } (PyFloat.abs (PyFloat.sub st.st_mtime (PyFloat.ofNat e.mtime))) then
      Except.error (PyError.runtimeError "File modified (mtime) between inventory and stream")
    else if st.st_size ≠ e.size then
      Except.error (PyError.runtimeError "File size changed")
    else Except.ok ()

/-- Read loop of TarStreamGenerator._stream_file_content_safely:
src/tartape/stream.py lines 137-150.  f.read(n) at position pos returns the
next min(n, remaining bytes of the file); an empty read raises File shrunk. -/
def read_chunks (content : List Nat) (pos remaining chunk_size : Nat) :
    Except PyError (List (List Nat)) :=
  if h : remaining = 0 then Except.ok []
  else
    let read_size := min chunk_size remaining
    let chunk := (content.drop pos).take read_size
    if hc : chunk.length = 0 then Except.error (PyError.runtimeError "File shrunk")
    else do
      let rest ← read_chunks content (pos + chunk.length) (remaining - chunk.length) chunk_size
      Except.ok (chunk :: rest)
termination_by remaining
decreasing_by
  have hle : (List.take (min chunk_size remaining) (List.drop pos content)).length ≤ remaining :=
    le_trans (List.length_take_le _ _) (min_le_right _ _)
  have hch : chunk.length = (List.take (min chunk_size remaining) (List.drop pos content)).length := rfl
  omega

/-- TarStreamGenerator._stream_file_content_safely: src/tartape/stream.py
lines 113-158.  Returns the FILE_DATA events of the content region and
whether an md5sum was produced (true exactly when local_skip = 0).  After a
successful read loop the file position equals entry.size, so the grew
check reads one byte past that position. -/
def stream_file_content_safely (disk : Disk) (e : Track) (global_skip chunk_size : Nat) :
    Except PyError (List TarEvent × Bool) :=
  let content_start := e.start_offset + TAR_BLOCK_SIZE
  let content_end := content_start + e.size
  if content_end ≤ global_skip then Except.ok ([], false)
  else do
    let _ ← validate_integrity disk e
    let local_skip := global_skip - content_start
    match disk e.rel_path with
    | none => Except.error (PyError.tarIntegrityError "Error leyendo")
    | some st => do
      let chunks ← read_chunks st.content local_skip (e.size - local_skip) chunk_size
      if local_skip = 0 && !(st.content.drop e.size).isEmpty then
        Except.error (PyError.runtimeError "File grew")
      else
        Except.ok (chunks.map (fun c => TarEvent.fileData c (some e.arc_path)), local_skip = 0)

/-- TarStreamGenerator._emit_padding: src/tartape/stream.py lines 160-177. -/
def emit_padding (e : Track) (global_skip : Nat) : List TarEvent :=
  let content_end := e.start_offset + TAR_BLOCK_SIZE + e.size
  let padding_end := e.end_offset
  if padding_end ≤ global_skip || content_end = padding_end then []
  else
    let local_skip := global_skip - content_end
    let pad_total := padding_end - content_end
    let padding_bytes : List Nat := List.replicate (pad_total - local_skip) 0
    if padding_bytes.isEmpty then [] else [TarEvent.fileData padding_bytes (some e.arc_path)]

/-- TarStreamGenerator._emit_tape_footer: src/tartape/stream.py lines 179-191. -/
def emit_tape_footer (global_skip footer_start : Nat) : List TarEvent :=
  let footer_end := footer_start + TAR_FOOTER_SIZE
  if footer_end ≤ global_skip then []
  else
    let local_skip := global_skip - footer_start
    let footer : List Nat := List.replicate (TAR_FOOTER_SIZE - local_skip) 0
    if footer.isEmpty then [] else [TarEvent.fileData footer none]

/-- Loop body of TarStreamGenerator.stream for one entry that is not skipped:
src/tartape/stream.py lines 51-65. -/
def stream_entry (disk : Disk) (e : Track) (start_offset chunk_size : Nat) :
    Except PyError (List TarEvent) := do
  let startEvs :=
    if start_offset ≤ e.start_offset then [TarEvent.fileStart e.arc_path e.start_offset] else []
  let hdrEvs ← emit_header e start_offset
  if entry_has_content e then do
    let cm ← stream_file_content_safely disk e start_offset chunk_size
    let padEvs := emit_padding e start_offset
    Except.ok (startEvs ++ hdrEvs ++ cm.1 ++ padEvs ++
      [TarEvent.fileEnd e.arc_path e.end_offset cm.2])
  else
    Except.ok (startEvs ++ hdrEvs ++ [TarEvent.fileEnd e.arc_path e.end_offset false])

/-- Entry loop of TarStreamGenerator.stream: src/tartape/stream.py lines
42-65.  Carries last_offset, which both the skip branch and the normal
branch set to the end_offset of the entry just handled; returns the events
and the final last_offset. -/
def stream_go (disk : Disk) (start_offset chunk_size : Nat) :
    List Track → Nat → Except PyError (List TarEvent × Nat)
  | [], last_offset => Except.ok ([], last_offset)
  | e :: es, _ =>
    if e.end_offset ≤ start_offset then
      stream_go disk start_offset chunk_size es e.end_offset
    else do
      let evs ← stream_entry disk e start_offset chunk_size
      let rest ← stream_go disk start_offset chunk_size es e.end_offset
      Except.ok (evs ++ rest.1, rest.2)

/-- TarStreamGenerator.stream: src/tartape/stream.py lines 33-69. -/
def stream (disk : Disk) (entries : List Track) (start_offset chunk_size : Nat) :
    Except PyError (List TarEvent) := do
  let r ← stream_go disk start_offset chunk_size entries 0
  Except.ok (r.1 ++ emit_tape_footer start_offset r.2 ++ [TarEvent.tapeCompleted])

/-- The track query of TapePlayer.play: src/tartape/player.py lines
161-166.  Keeps the tracks whose end_offset exceeds the start offset, in
ascending arc_path order (a filter of the ordered inventory list). -/
def playQuery (tracks : List Track) (start_offset : Nat) : List Track :=
  tracks.filter (fun t => start_offset < t.end_offset)

/-- TapePlayer.play on the fast_verify=False path: src/tartape/player.py
lines 143-174.  tracks is the inventory in ascending arc_path order; after
the pre-flight verification and the resume-point check, the query result
is handed to the engine. -/
def play (disk : Disk) (tracks : List Track) (total_size start_offset chunk_size : Nat) :
    Except PyError (List TarEvent) := do
  let _ ← verify disk tracks
  let _ ←
    (if 0 < start_offset then verify_resume_point disk tracks total_size start_offset
     else Except.ok ())
  stream disk (playQuery tracks start_offset) start_offset chunk_size

/-- Data bytes carried by one event. -/
def dataBytes : TarEvent → List Nat
  | TarEvent.fileData d _ => d
  | _ => []

/-- Concatenation of all data bytes of an event sequence. -/
def concatData (evs : List TarEvent) : List Nat :=
  evs.flatMap dataBytes

/-- Recogniser of FILE_START events. -/
def isFileStart : TarEvent → Bool
  | TarEvent.fileStart _ _ => true
  | _ => false

/-! Concrete fixtures used by witnesses and counterexamples.  Modes carry
the full st_mode of the probe (type bits plus permissions) on the disk side
and the stripped permission bits on the Track side, as the factory stores
them. -/

/-- A small regular-file track as the recorder would store it. -/
def fileTrack : Track :=
  { arc_path := "dataset/root.txt", rel_path := "root.txt", size := 14,
    mtime := 1700000000, mode := 420, uname := "root", gname := "root" }

/-- A track whose size needs the GNU base-256 encoding. -/
def bigTrack : Track :=
  { arc_path := "giant.bin", rel_path := "giant.bin", size := 2 ^ 33,
    mtime := 123, mode := 420, uname := "root", gname := "root" }

/-- The directory track of test_unit_path.test_directory_trailing_slash. -/
def dirTrack : Track :=
  { arc_path := "my_folder", rel_path := "my_folder", is_dir := true,
    mode := 493, uname := "r", gname := "r" }

/-- A track whose uid exceeds the 7-octal-digit capacity. -/
def bigUidTrack : Track :=
  { arc_path := "f.txt", rel_path := "f.txt", uid := 2097152,
    uname := "root", gname := "root" }

/-- The path-split dead zone of scenario 7: 90 + 1 + 90 + 1 + 70 = 252
bytes, every component at most 100 bytes, no legal USTAR split. -/
def deadZonePath : String :=
  String.mk (List.replicate 90 'a') ++ "/" ++
    String.mk (List.replicate 90 'b') ++ "/" ++ String.mk (List.replicate 70 'c')

/-- Track carrying the dead-zone path. -/
def deadZoneTrack : Track :=
  { arc_path := deadZonePath, rel_path := "x", uname := "root", gname := "root" }

/-- Raw directory track before the layout pass. -/
def rawDirTrack : Track :=
  { arc_path := "dataset", rel_path := "", is_dir := true, mode := 493 }

/-- Raw file track before the layout pass. -/
def rawFileTrack : Track :=
  { arc_path := "dataset/a.txt", rel_path := "a.txt", size := 5, mtime := 100, mode := 420 }

/-- Root directory track after layout: one 512-byte header block. -/
def rootDirTrack : Track :=
  { arc_path := "d", rel_path := "", is_dir := true, mode := 493, mtime := 5,
    uname := "root", gname := "root", start_offset := 0, end_offset := 512 }

/-- The on-disk state a Track claims in the inventory, compared the way
the recorder stored it (TarEntryFactory.inspect, src/tartape/factory.py
lines 36-75: int-truncated st_mtime, st_size, stat.S_IMODE permission
bits — the low twelve bits of st_mode — and the link target): the probe
result exists, its truncated st_mtime equals the stored mtime, its st_size
the stored size, its permission bits the stored mode, and its link target
the stored linkname.  A track satisfying this is one with no
mtime/size/mode/linkname drift. -/
def matchesInventory (disk : Disk) (t : Track) : Prop :=
  ∃ st, disk t.rel_path = some st ∧ pyInt st.st_mtime = (t.mtime : Int) ∧
    st.st_size = t.size ∧ st.st_mode % 4096 = t.mode ∧ st.linkname = t.linkname

/-- Rounding up to a multiple of 512, the padded function of the spec. -/
def ceil512 (n : Nat) : Nat :=
  ((n + 511) / 512) * 512

/-- Content size of a record: the file size for regular files, 0 for
directories and symlinks (models.py, content_end_offset and
total_block_size). -/
def contentSize (t : Track) : Nat :=
  if t.is_dir || t.is_symlink then 0 else t.size

/-- Regular-file track after layout: header at 512, 7 content bytes,
505 padding bytes, ending at 1536. -/
def contentTrack : Track :=
  { arc_path := "d/f.txt", rel_path := "f.txt", size := 7, mtime := 100,
    mode := 420, uname := "root", gname := "root",
    start_offset := 512, end_offset := 1536 }

/-- A disk matching the inventory of rootDirTrack and contentTrack:
the directory probe carries st_mode 0o40755, the file 0o100644 with a
7-byte body. -/
def smallDisk : Disk := fun r =>
  if r = "" then some { st_mtime := PyFloat.ofNat 5, st_size := 0, st_mode := 16877 }
  else if r = "f.txt" then
    some { st_mtime := PyFloat.ofNat 100, st_size := 7, st_mode := 33188,
           content := [65, 66, 67, 68, 69, 70, 71] }
  else none

/-- A disk whose file matches contentTrack except that the float st_mtime
(201 / 2 = 100.5, an exactly representable double) carries a half-second
fractional part: int truncation gives 100, the inventory value. -/
def fracDisk : Disk := fun r =>
  if r = "f.txt" then
    some { st_mtime := { num := 201, den := 2 }, st_size := 7, st_mode := 33188,
           content := [65, 66, 67, 68, 69, 70, 71] }
  else none

/-! Helper lemmas about the embedding primitives. -/

theorem bind_ok {α β : Type} {x : Except PyError α} {f : α → Except PyError β} {b : β}
    (h : (x >>= f) = Except.ok b) : ∃ a, x = Except.ok a ∧ f a = Except.ok b := by
  cases x with
  | ok a => exact ⟨a, rfl, h⟩
  | error e => exact Except.noConfusion h

/-- Slice of len bytes of a buffer starting at off. -/
def readSlice (buf : List Nat) (off len : Nat) : List Nat :=
  (buf.drop off).take len

theorem length_sliceAssign {buf data : List Nat} {start stop : Nat}
    (h1 : start ≤ stop) (h2 : stop ≤ buf.length) (h3 : data.length = stop - start) :
    (sliceAssign buf start stop data).length = buf.length := by
  simp [sliceAssign, List.length_append, List.length_take, List.length_drop]
  omega

theorem getElem?_sliceAssign (buf data : List Nat) (start stop i : Nat)
    (h1 : start ≤ stop) (h2 : stop ≤ buf.length) :
    (sliceAssign buf start stop data)[i]? =
      if i < start then buf[i]?
      else if i - start < data.length then data[i - start]?
      else buf[stop + (i - start - data.length)]? := by
  have hA : (List.take start buf).length = start := by simp; omega
  unfold sliceAssign
  rw [List.append_assoc, List.getElem?_append, hA, List.getElem?_take]
  by_cases hi : i < start
  · simp [hi]
  · simp only [hi, if_false]
    rw [List.getElem?_append]
    by_cases hd : i - start < data.length
    · simp [hd]
    · simp only [hd, if_false]
      rw [List.getElem?_drop]

theorem getElem?_readSlice (buf : List Nat) (off len i : Nat) :
    (readSlice buf off len)[i]? = if i < len then buf[off + i]? else none := by
  unfold readSlice
  rw [List.getElem?_take]
  by_cases hi : i < len
  · simp [hi, List.getElem?_drop]
  · simp [hi]

theorem readSlice_sliceAssign_before {buf data : List Nat} {start stop off len : Nat}
    (h : off + len ≤ start) (hss : start ≤ stop) (hstop : stop ≤ buf.length) :
    readSlice (sliceAssign buf start stop data) off len = readSlice buf off len := by
  apply List.ext_getElem?
  intro n
  rw [getElem?_readSlice, getElem?_readSlice]
  by_cases hn : n < len
  · simp only [hn, if_true]
    rw [getElem?_sliceAssign buf data start stop _ hss hstop]
    have hlt : off + n < start := by omega
    simp [hlt]
  · simp [hn]

theorem readSlice_sliceAssign_after {buf data : List Nat} {start stop off len : Nat}
    (h : stop ≤ off) (hss : start ≤ stop) (hstop : stop ≤ buf.length)
    (hdata : data.length = stop - start) :
    readSlice (sliceAssign buf start stop data) off len = readSlice buf off len := by
  apply List.ext_getElem?
  intro n
  rw [getElem?_readSlice, getElem?_readSlice]
  by_cases hn : n < len
  · simp only [hn, if_true]
    rw [getElem?_sliceAssign buf data start stop _ hss hstop]
    have hlt : ¬(off + n < start) := by omega
    have hd : ¬(off + n - start < data.length) := by omega
    simp only [hlt, if_false, hd]
    have harith : stop + (off + n - start - data.length) = off + n := by omega
    rw [harith]
  · simp [hn]

theorem readSlice_sliceAssign_exact {buf data : List Nat} {start stop : Nat}
    (hss : start ≤ stop) (hstop : stop ≤ buf.length) :
    readSlice (sliceAssign buf start stop data) start data.length = data := by
  apply List.ext_getElem?
  intro n
  rw [getElem?_readSlice]
  by_cases hn : n < data.length
  · simp only [hn, if_true]
    rw [getElem?_sliceAssign buf data start stop _ hss hstop]
    have hlt : ¬(start + n < start) := by omega
    have hd : start + n - start < data.length := by omega
    simp only [hlt, if_false, hd, if_true]
    congr 1
    omega
  · simp only [hn, if_false]
    exact (List.getElem?_eq_none (by omega)).symm

theorem char_toNat_lt (c : Char) : c.toNat < 1114112 := by
  have h := c.valid
  unfold UInt32.isValidChar Nat.isValidChar at h
  rcases h with h | ⟨h1, h2⟩ <;> unfold Char.toNat <;> omega

theorem utf8EncodeChar_lt_256 (c : Char) : ∀ b ∈ utf8EncodeChar c, b < 256 := by
  intro b hb
  have hc := char_toNat_lt c
  have hm1 : c.toNat / 4096 % 64 < 64 := Nat.mod_lt _ (by norm_num)
  have hm2 : c.toNat / 64 % 64 < 64 := Nat.mod_lt _ (by norm_num)
  have hm3 : c.toNat % 64 < 64 := Nat.mod_lt _ (by norm_num)
  by_cases h1 : c.toNat < 128
  · simp [utf8EncodeChar, h1] at hb; omega
  · by_cases h2 : c.toNat < 2048
    · have h64 : c.toNat / 64 < 32 := by omega
      simp [utf8EncodeChar, h1, h2] at hb
      rcases hb with hb | hb <;> omega
    · by_cases h3 : c.toNat < 65536
      · have h4096 : c.toNat / 4096 < 16 := by omega
        simp [utf8EncodeChar, h1, h2, h3] at hb
        rcases hb with hb | hb | hb <;> omega
      · have h262144 : c.toNat / 262144 < 5 := by omega
        simp [utf8EncodeChar, h1, h2, h3] at hb
        rcases hb with hb | hb | hb | hb <;> omega

theorem utf8Bytes_lt_256 (cs : List Char) : ∀ b ∈ utf8Bytes cs, b < 256 := by
  intro b hb
  unfold utf8Bytes at hb
  rw [List.mem_flatMap] at hb
  obtain ⟨c, _, hbc⟩ := hb
  exact utf8EncodeChar_lt_256 c b hbc

theorem octDigitsAux_eq_digits (fuel n : Nat) (h : n ≤ fuel) :
    octDigitsAux fuel n = Nat.digits 8 n := by
  induction fuel generalizing n with
  | zero =>
    have hn : n = 0 := by omega
    subst hn
    simp [octDigitsAux]
  | succ f ih =>
    cases n with
    | zero => simp [octDigitsAux]
    | succ m =>
      rw [octDigitsAux]
      have hdiv : (m + 1) / 8 < m + 1 := Nat.div_lt_self (Nat.succ_pos m) (by norm_num)
      rw [ih ((m + 1) / 8) (by omega)]
      rw [Nat.digits_def' (by norm_num : 1 < 8) (Nat.succ_pos m)]

theorem octalByteDigits_eq (n : Nat) :
    octalByteDigits n =
      if n = 0 then [48] else (Nat.digits 8 n).reverse.map (fun d => 48 + d) := by
  unfold octalByteDigits
  split
  · rfl
  · rw [octDigitsAux_eq_digits n n le_rfl]

theorem octalByteDigits_mem {n b : Nat} (hb : b ∈ octalByteDigits n) : 48 ≤ b ∧ b ≤ 55 := by
  rw [octalByteDigits_eq] at hb
  split at hb
  · simp at hb; omega
  · rw [List.mem_map] at hb
    obtain ⟨d, hd, hbd⟩ := hb
    rw [List.mem_reverse] at hd
    have := Nat.digits_lt_base (by norm_num) hd
    omega

theorem octalByteDigits_length_le {n k : Nat} (h1 : 1 ≤ k) (h : n < 8 ^ k) :
    (octalByteDigits n).length ≤ k := by
  rw [octalByteDigits_eq]
  split
  · simpa
  · rename_i hn
    rw [List.length_map, List.length_reverse, Nat.digits_len 8 n (by norm_num) hn]
    have := (Nat.lt_pow_iff_log_lt (b := 8) (by norm_num) hn).mp h
    omega

theorem lt_of_octalByteDigits_length_le {n k : Nat} (h : (octalByteDigits n).length ≤ k) :
    n < 8 ^ k := by
  rw [octalByteDigits_eq] at h
  split at h
  · rename_i hn
    subst hn
    positivity
  · rw [List.length_map, List.length_reverse] at h
    calc n < 8 ^ (Nat.digits 8 n).length := Nat.lt_base_pow_length_digits (by norm_num)
    _ ≤ 8 ^ k := Nat.pow_le_pow_right (by norm_num) h

theorem foldl_base_eq_ofDigits (l : List Nat) (b : Nat) :
    l.reverse.foldl (fun a d => a * b + d) 0 = Nat.ofDigits b l := by
  induction l with
  | nil => simp [Nat.ofDigits]
  | cons d l ih =>
    rw [List.reverse_cons, List.foldl_append, ih, Nat.ofDigits_cons]
    simp [Nat.mul_comm]
    omega

theorem ofOctalChars_octalByteDigits (n : Nat) :
    ofOctalChars (octalByteDigits n) = n := by
  rw [octalByteDigits_eq]
  unfold ofOctalChars
  split
  · simp_all
  · rw [List.foldl_map]
    have : (fun (a d : Nat) => a * 8 + (48 + d - 48)) = fun a d => a * 8 + d := by
      funext a d
      omega
    rw [this, foldl_base_eq_ofDigits, Nat.ofDigits_digits]

theorem ofOctalChars_zfill (w n : Nat) :
    ofOctalChars (zfillBytes w (octalByteDigits n)) = n := by
  unfold zfillBytes ofOctalChars
  rw [List.foldl_append]
  have hz : ∀ m : Nat, (List.replicate m 48).foldl (fun (a d : Nat) => a * 8 + (d - 48)) 0 = 0 := by
    intro m
    induction m with
    | zero => rfl
    | succ k ih => rw [List.replicate_succ, List.foldl_cons]; simpa using ih
  rw [hz]
  exact ofOctalChars_octalByteDigits n

theorem length_zfill_of_le {w : Nat} {ds : List Nat} (h : ds.length ≤ w) :
    (zfillBytes w ds).length = w := by
  unfold zfillBytes
  simp
  omega

theorem length_toBytesBE (k v : Nat) : (toBytesBE k v).length = k := by
  induction k generalizing v with
  | zero => rfl
  | succ n ih => unfold toBytesBE; simp [ih]

theorem toBytesBE_lt_256 (k v : Nat) : ∀ b ∈ toBytesBE k v, b < 256 := by
  induction k generalizing v with
  | zero => intro b hb; simp [toBytesBE] at hb
  | succ n ih =>
    intro b hb
    unfold toBytesBE at hb
    rw [List.mem_append] at hb
    rcases hb with hb | hb
    · exact ih _ b hb
    · simp at hb
      subst hb
      exact Nat.mod_lt _ (by norm_num)

theorem ofBytesBE_toBytesBE (k v : Nat) : ofBytesBE (toBytesBE k v) = v % 256 ^ k := by
  induction k generalizing v with
  | zero => simp [toBytesBE, ofBytesBE, Nat.mod_one]
  | succ n ih =>
    unfold toBytesBE ofBytesBE
    rw [List.foldl_append]
    have h1 : (toBytesBE n (v / 256)).foldl (fun a b => a * 256 + b) 0 = v / 256 % 256 ^ n := ih _
    rw [h1]
    simp only [List.foldl_cons, List.foldl_nil]
    have h2 : v % (256 * 256 ^ n) = v % 256 + 256 * (v / 256 % 256 ^ n) := Nat.mod_mul
    have h3 : (256 : Nat) ^ (n + 1) = 256 * 256 ^ n := by ring
    rw [h3, h2]
    ring

theorem foldl_add_le_mul (l : List Nat) (bound : Nat) (h : ∀ b ∈ l, b ≤ bound) :
    ∀ a : Nat, l.foldl (fun x y => x + y) a ≤ a + l.length * bound := by
  induction l with
  | nil => intro a; simp
  | cons x l ih =>
    intro a
    rw [List.foldl_cons]
    have hx : x ≤ bound := h x (List.mem_cons_self _ _)
    have := ih (fun b hb => h b (List.mem_cons_of_mem _ hb)) (a + x)
    calc (l.foldl (fun x y => x + y) (a + x)) ≤ a + x + l.length * bound := this
    _ ≤ a + (x :: l).length * bound := by simp [List.length_cons]; ring_nf; omega

theorem ok_inj {α : Type} {a b : α} (h : (Except.ok a : Except PyError α) = Except.ok b) :
    a = b :=
  Except.ok.inj h

theorem mem_sliceAssign {buf data : List Nat} {start stop : Nat} {b : Nat}
    (hb : b ∈ sliceAssign buf start stop data) : b ∈ buf ∨ b ∈ data := by
  unfold sliceAssign at hb
  rw [List.mem_append, List.mem_append] at hb
  rcases hb with (hb | hb) | hb
  · exact Or.inl (List.mem_of_mem_take hb)
  · exact Or.inr hb
  · exact Or.inl (List.mem_of_mem_drop hb)

/-- Well-formed byte buffer: 512 entries, all below 256. -/
def GoodBuf (buf : List Nat) : Prop :=
  buf.length = 512 ∧ ∀ b ∈ buf, b < 256

theorem goodBuf_sliceAssign {buf data : List Nat} {start stop : Nat}
    (hg : GoodBuf buf) (h1 : start ≤ stop) (h2 : stop ≤ 512) (h3 : data.length = stop - start)
    (hd : ∀ b ∈ data, b < 256) : GoodBuf (sliceAssign buf start stop data) := by
  have hl := hg.1
  refine ⟨?_, ?_⟩
  · rw [length_sliceAssign h1 (by omega) h3]
    exact hl
  · intro b hb
    rcases mem_sliceAssign hb with hb | hb
    · exact hg.2 b hb
    · exact hd b hb

theorem set_string_ok {buf out : List Nat} {off w : Nat} {v : List Char}
    (h : set_string buf off w v = Except.ok out) :
    (utf8Bytes v).length ≤ w ∧
      out = sliceAssign buf off (off + (utf8Bytes v).length) (utf8Bytes v) := by
  by_cases hc : (utf8Bytes v).length > w
  · simp [set_string, hc] at h
  · simp [set_string, hc] at h
    exact ⟨by omega, h.symm⟩

theorem set_string_good {buf out : List Nat} {off w : Nat} {v : List Char}
    (h : set_string buf off w v = Except.ok out) (hw : off + w ≤ 512) (hg : GoodBuf buf) :
    GoodBuf out := by
  obtain ⟨hle, rfl⟩ := set_string_ok h
  exact goodBuf_sliceAssign hg (by omega) (by omega) (by omega) (utf8Bytes_lt_256 v)

theorem set_octal_ok {buf out : List Nat} {off w val : Nat}
    (h : set_octal buf off w val = Except.ok out) :
    (octalByteDigits val).length ≤ w - 1 ∧
      out = sliceAssign buf off (off + w) (zfillBytes (w - 1) (octalByteDigits val) ++ [0]) := by
  by_cases hc : (octalByteDigits val).length > w - 1
  · simp [set_octal, hc] at h
  · simp [set_octal, hc] at h
    exact ⟨by omega, h.symm⟩

theorem set_octal_data_length {w : Nat} {val : Nat} (hw : 1 ≤ w)
    (hle : (octalByteDigits val).length ≤ w - 1) :
    (zfillBytes (w - 1) (octalByteDigits val) ++ [0]).length = w := by
  rw [List.length_append, length_zfill_of_le hle]
  simp
  omega

theorem set_octal_good {buf out : List Nat} {off w val : Nat}
    (h : set_octal buf off w val = Except.ok out) (hw1 : 1 ≤ w) (hw : off + w ≤ 512)
    (hg : GoodBuf buf) : GoodBuf out := by
  obtain ⟨hle, rfl⟩ := set_octal_ok h
  refine goodBuf_sliceAssign hg (by omega) (by omega) ?_ ?_
  · rw [set_octal_data_length hw1 hle]
    omega
  · intro b hb
    rw [List.mem_append] at hb
    rcases hb with hb | hb
    · unfold zfillBytes at hb
      rw [List.mem_append] at hb
      rcases hb with hb | hb
      · rw [List.mem_replicate] at hb
        omega
      · have := octalByteDigits_mem hb
        omega
    · simp at hb
      omega

theorem set_octal_value_lt {buf out : List Nat} {off w val : Nat}
    (h : set_octal buf off w val = Except.ok out) : val < 8 ^ (w - 1) :=
  lt_of_octalByteDigits_length_le (set_octal_ok h).1

theorem set_bytes_ok {buf out value : List Nat} {off : Nat}
    (h : set_bytes buf off value = Except.ok out) :
    off + value.length ≤ 512 ∧ out = sliceAssign buf off (off + value.length) value := by
  unfold set_bytes at h
  split at h
  · exact Except.noConfusion h
  · rename_i hle
    exact ⟨by omega, (ok_inj h).symm⟩

theorem set_bytes_good {buf out value : List Nat} {off : Nat}
    (h : set_bytes buf off value = Except.ok out) (hv : ∀ b ∈ value, b < 256)
    (hg : GoodBuf buf) : GoodBuf out := by
  obtain ⟨hle, rfl⟩ := set_bytes_ok h
  exact goodBuf_sliceAssign hg (by omega) (by omega) (by omega) hv

theorem set_size_good {buf out : List Nat} {size : Nat}
    (h : set_size buf size = Except.ok out) (hg : GoodBuf buf) : GoodBuf out := by
  unfold set_size at h
  split at h
  · exact set_octal_good h (by norm_num) (by norm_num) hg
  · split at h
    · exact Except.noConfusion h
    · rw [← ok_inj h]
      refine goodBuf_sliceAssign ?_ (by norm_num) (by norm_num) ?_ (toBytesBE_lt_256 11 size)
      · exact goodBuf_sliceAssign hg (by norm_num) (by norm_num) (by simp) (by simp)
      · rw [length_toBytesBE]

theorem checksum_data_length (buf : List Nat) (hg : GoodBuf buf) :
    (zfillBytes 6 (octalByteDigits
      ((sliceAssign buf 148 156 (List.replicate 8 32)).foldl (fun a b => a + b) 0)) ++ [0, 32]).length = 8 := by
  have hgs : GoodBuf (sliceAssign buf 148 156 (List.replicate 8 32)) :=
    goodBuf_sliceAssign hg (by norm_num) (by norm_num) (by simp) (by
      intro b hb
      rw [List.mem_replicate] at hb
      omega)
  have hsum : (sliceAssign buf 148 156 (List.replicate 8 32)).foldl (fun a b => a + b) 0 ≤ 512 * 255 := by
    have := foldl_add_le_mul (sliceAssign buf 148 156 (List.replicate 8 32)) 255
      (fun b hb => by have := hgs.2 b hb; omega) 0
    rw [hgs.1] at this
    omega
  have hlt : (sliceAssign buf 148 156 (List.replicate 8 32)).foldl (fun a b => a + b) 0 < 8 ^ 6 := by
    norm_num at hsum ⊢
    omega
  have hlen := octalByteDigits_length_le (by norm_num) hlt
  rw [List.length_append, length_zfill_of_le hlen]
  simp

theorem calculate_checksum_good {buf : List Nat} (hg : GoodBuf buf) :
    GoodBuf (calculate_checksum buf) := by
  unfold calculate_checksum
  have hgs : GoodBuf (sliceAssign buf 148 156 (List.replicate 8 32)) :=
    goodBuf_sliceAssign hg (by norm_num) (by norm_num) (by simp) (by
      intro b hb
      rw [List.mem_replicate] at hb
      omega)
  refine goodBuf_sliceAssign hgs (by norm_num) (by norm_num) ?_ ?_
  · have := checksum_data_length buf hg
    omega
  · intro b hb
    rw [List.mem_append] at hb
    rcases hb with hb | hb
    · unfold zfillBytes at hb
      rw [List.mem_append] at hb
      rcases hb with hb | hb
      · rw [List.mem_replicate] at hb
        omega
      · have := octalByteDigits_mem hb
        omega
    · simp at hb
      rcases hb with hb | hb <;> omega

theorem calculate_checksum_readSlice {buf : List Nat} (hg : GoodBuf buf)
    {off len : Nat} (h : off + len ≤ 148) :
    readSlice (calculate_checksum buf) off len = readSlice buf off len := by
  unfold calculate_checksum
  have hgs : GoodBuf (sliceAssign buf 148 156 (List.replicate 8 32)) :=
    goodBuf_sliceAssign hg (by norm_num) (by norm_num) (by simp) (by
      intro b hb
      rw [List.mem_replicate] at hb
      omega)
  rw [readSlice_sliceAssign_before h (by norm_num) (by rw [hgs.1]; norm_num)]
  rw [readSlice_sliceAssign_before h (by norm_num) (by rw [hg.1]; norm_num)]

/-- Combined facts extracted from a successful header build: the result is
512 bytes long; every numeric field fitted its octal field; and the bytes at
offsets 124-135 carry the encoded size in the form selected by set_size. -/
theorem build_ok_spec (e : Track) (bs : List Nat) (h : build e = Except.ok bs) :
    bs.length = 512 ∧
    e.mode < 8 ^ 7 ∧ e.uid < 8 ^ 7 ∧ e.gid < 8 ^ 7 ∧ e.mtime < 8 ^ 11 ∧
    (e.size ≤ 8589934591 →
      readSlice bs 124 12 = zfillBytes 11 (octalByteDigits e.size) ++ [0]) ∧
    (¬ e.size ≤ 8589934591 →
      e.size < 256 ^ 11 ∧ readSlice bs 124 1 = [128] ∧
        readSlice bs 125 11 = toBytesBE 11 e.size) := by
  unfold build at h
  obtain ⟨np, hnp, h⟩ := bind_ok h
  obtain ⟨buf1, h1, h⟩ := bind_ok h
  obtain ⟨buf2, h2, h⟩ := bind_ok h
  obtain ⟨buf3, h3, h⟩ := bind_ok h
  obtain ⟨buf4, h4, h⟩ := bind_ok h
  obtain ⟨buf5, h5, h⟩ := bind_ok h
  obtain ⟨buf6, h6, h⟩ := bind_ok h
  obtain ⟨buf7, h7, h⟩ := bind_ok h
  obtain ⟨buf8, h8, h⟩ := bind_ok h
  obtain ⟨buf9, h9, h⟩ := bind_ok h
  obtain ⟨tfl, htfl, h⟩ := bind_ok h
  obtain ⟨buf10, h10, h⟩ := bind_ok h
  obtain ⟨buf11, h11, h⟩ := bind_ok h
  obtain ⟨buf12, h12, h⟩ := bind_ok h
  -- final length guard
  have hfin :
      (if (calculate_checksum buf12).length ≠ 512 then
        (Except.error (PyError.valueError "Header is not 512 bytes long.") :
          Except PyError (List Nat))
      else Except.ok (calculate_checksum buf12)) = Except.ok bs := h
  by_cases hlen : (calculate_checksum buf12).length = 512
  case neg =>
    rw [if_pos hlen] at hfin
    exact Except.noConfusion hfin
  have hbs : calculate_checksum buf12 = bs := by
    rw [if_neg (fun hc => hc hlen)] at hfin
    exact ok_inj hfin
  -- good-buffer chain
  have hg0 : GoodBuf (List.replicate 512 0) := by
    constructor
    · rw [List.length_replicate]
    · intro b hb
      rw [List.mem_replicate] at hb
      omega
  have hg1 : GoodBuf buf1 := set_string_good h1 (by norm_num) hg0
  have hg2 : GoodBuf buf2 := set_string_good h2 (by norm_num) hg1
  have hg3 : GoodBuf buf3 := set_octal_good h3 (by norm_num) (by norm_num) hg2
  have hg4 : GoodBuf buf4 := set_octal_good h4 (by norm_num) (by norm_num) hg3
  have hg5 : GoodBuf buf5 := set_octal_good h5 (by norm_num) (by norm_num) hg4
  have hg6 : GoodBuf buf6 := set_size_good h6 hg5
  have hg7 : GoodBuf buf7 := set_octal_good h7 (by norm_num) (by norm_num) hg6
  have hg8 : GoodBuf buf8 := set_string_good h8 (by norm_num) hg7
  have hg9 : GoodBuf buf9 := set_string_good h9 (by norm_num) hg8
  have hgt : GoodBuf tfl.1 ∧ 136 ≤ 156 := by
    refine ⟨?_, by norm_num⟩
    split at htfl
    · rw [← ok_inj htfl]
      exact hg9
    · split at htfl
      · obtain ⟨b, hb, htfl2⟩ := bind_ok htfl
        rw [← ok_inj htfl2]
        exact set_string_good hb (by norm_num) hg9
      · rw [← ok_inj htfl]
        exact hg9
  have hg10 : GoodBuf buf10 := by
    obtain ⟨hb1, rfl⟩ := set_bytes_ok h10
    refine goodBuf_sliceAssign hgt.1 (by omega) (by omega) (by omega) ?_
    intro b hb
    have : tfl.2 = [53] ∨ tfl.2 = [50] ∨ tfl.2 = [48] := by
      split at htfl
      · rw [← ok_inj htfl]
        exact Or.inl rfl
      · split at htfl
        · obtain ⟨b2, hb2, htfl2⟩ := bind_ok htfl
          rw [← ok_inj htfl2]
          exact Or.inr (Or.inl rfl)
        · rw [← ok_inj htfl]
          exact Or.inr (Or.inr rfl)
    rcases this with ht | ht | ht <;> rw [ht] at hb <;> simp at hb <;> omega
  have hg11 : GoodBuf buf11 := set_string_good h11 (by norm_num) hg10
  have hg12 : GoodBuf buf12 := set_string_good h12 (by norm_num) hg11
  -- octal field bounds
  have hmode : e.mode < 8 ^ 7 := set_octal_value_lt h3
  have huid : e.uid < 8 ^ 7 := set_octal_value_lt h4
  have hgid : e.gid < 8 ^ 7 := set_octal_value_lt h5
  have hmtime : e.mtime < 8 ^ 11 := set_octal_value_lt h7
  -- the size field of buf6
  have hsize :
      (e.size ≤ 8589934591 →
        readSlice buf6 124 12 = zfillBytes 11 (octalByteDigits e.size) ++ [0]) ∧
      (¬ e.size ≤ 8589934591 →
        e.size < 256 ^ 11 ∧ readSlice buf6 124 1 = [128] ∧
          readSlice buf6 125 11 = toBytesBE 11 e.size) := by
    unfold set_size at h6
    constructor
    · intro hle
      rw [if_pos hle] at h6
      obtain ⟨hdl, rfl⟩ := set_octal_ok h6
      have hdata := @set_octal_data_length 12 e.size (by norm_num) hdl
      have := @readSlice_sliceAssign_exact buf5
        (zfillBytes 11 (octalByteDigits e.size) ++ [0]) 124 136
        (by norm_num) (by rw [hg5.1]; norm_num)
      rw [hdata] at this
      exact this
    · intro hgt2
      rw [if_neg hgt2] at h6
      split at h6
      · exact Except.noConfusion h6
      · rename_i hbig
        push_neg at hbig
        rw [← ok_inj h6]
        refine ⟨hbig, ?_, ?_⟩
        · have hinner : GoodBuf (sliceAssign buf5 124 125 [128]) :=
            goodBuf_sliceAssign hg5 (by norm_num) (by norm_num) (by simp) (by simp)
          rw [readSlice_sliceAssign_before (by norm_num) (by norm_num)
              (by rw [hinner.1]; norm_num)]
          have := @readSlice_sliceAssign_exact buf5 [128]
            124 125 (by norm_num) (by rw [hg5.1]; norm_num)
          simpa using this
        · have hinner : GoodBuf (sliceAssign buf5 124 125 [128]) :=
            goodBuf_sliceAssign hg5 (by norm_num) (by norm_num) (by simp) (by simp)
          have := @readSlice_sliceAssign_exact
            (sliceAssign buf5 124 125 [128]) (toBytesBE 11 e.size)
            125 136 (by norm_num) (by rw [hinner.1]; norm_num)
          rw [length_toBytesBE] at this
          exact this
  -- the size field survives every later write
  have hpres7 : readSlice buf7 124 12 = readSlice buf6 124 12 ∧
      readSlice buf7 124 1 = readSlice buf6 124 1 ∧
      readSlice buf7 125 11 = readSlice buf6 125 11 := by
    obtain ⟨hdl, rfl⟩ := set_octal_ok h7
    have hd := @set_octal_data_length 12 e.mtime (by norm_num) hdl
    refine ⟨?_, ?_, ?_⟩ <;>
      exact readSlice_sliceAssign_before (by norm_num) (by omega)
        (by rw [hg6.1]; norm_num)
  have hpres8 : readSlice buf8 124 12 = readSlice buf7 124 12 ∧
      readSlice buf8 124 1 = readSlice buf7 124 1 ∧
      readSlice buf8 125 11 = readSlice buf7 125 11 := by
    obtain ⟨hdl, rfl⟩ := set_string_ok h8
    refine ⟨?_, ?_, ?_⟩ <;>
      exact readSlice_sliceAssign_before (by norm_num) (by omega)
        (by rw [hg7.1]; omega)
  have hpres9 : readSlice buf9 124 12 = readSlice buf8 124 12 ∧
      readSlice buf9 124 1 = readSlice buf8 124 1 ∧
      readSlice buf9 125 11 = readSlice buf8 125 11 := by
    obtain ⟨hdl, rfl⟩ := set_string_ok h9
    refine ⟨?_, ?_, ?_⟩ <;>
      exact readSlice_sliceAssign_before (by norm_num) (by omega)
        (by rw [hg8.1]; omega)
  have hprest : readSlice tfl.1 124 12 = readSlice buf9 124 12 ∧
      readSlice tfl.1 124 1 = readSlice buf9 124 1 ∧
      readSlice tfl.1 125 11 = readSlice buf9 125 11 := by
    split at htfl
    · rw [← ok_inj htfl]
      exact ⟨rfl, rfl, rfl⟩
    · split at htfl
      · obtain ⟨b, hb, htfl2⟩ := bind_ok htfl
        rw [← ok_inj htfl2]
        obtain ⟨hdl, rfl⟩ := set_string_ok hb
        refine ⟨?_, ?_, ?_⟩ <;>
          exact readSlice_sliceAssign_before (by norm_num) (by omega)
            (by rw [hg9.1]; omega)
      · rw [← ok_inj htfl]
        exact ⟨rfl, rfl, rfl⟩
  have hpres10 : readSlice buf10 124 12 = readSlice tfl.1 124 12 ∧
      readSlice buf10 124 1 = readSlice tfl.1 124 1 ∧
      readSlice buf10 125 11 = readSlice tfl.1 125 11 := by
    obtain ⟨hdl, rfl⟩ := set_bytes_ok h10
    refine ⟨?_, ?_, ?_⟩ <;>
      exact readSlice_sliceAssign_before (by norm_num) (by omega)
        (by rw [hgt.1.1]; omega)
  have hpres11 : readSlice buf11 124 12 = readSlice buf10 124 12 ∧
      readSlice buf11 124 1 = readSlice buf10 124 1 ∧
      readSlice buf11 125 11 = readSlice buf10 125 11 := by
    obtain ⟨hdl, rfl⟩ := set_string_ok h11
    refine ⟨?_, ?_, ?_⟩ <;>
      exact readSlice_sliceAssign_before (by norm_num) (by omega)
        (by rw [hg10.1]; omega)
  have hpres12 : readSlice buf12 124 12 = readSlice buf11 124 12 ∧
      readSlice buf12 124 1 = readSlice buf11 124 1 ∧
      readSlice buf12 125 11 = readSlice buf11 125 11 := by
    obtain ⟨hdl, rfl⟩ := set_string_ok h12
    refine ⟨?_, ?_, ?_⟩ <;>
      exact readSlice_sliceAssign_before (by norm_num) (by omega)
        (by rw [hg11.1]; omega)
  have hpres13 : readSlice bs 124 12 = readSlice buf12 124 12 ∧
      readSlice bs 124 1 = readSlice buf12 124 1 ∧
      readSlice bs 125 11 = readSlice buf12 125 11 := by
    rw [← hbs]
    exact ⟨calculate_checksum_readSlice hg12 (by norm_num),
      calculate_checksum_readSlice hg12 (by norm_num),
      calculate_checksum_readSlice hg12 (by norm_num)⟩
  have hlenbs : bs.length = 512 := by
    rw [← hbs]
    exact (calculate_checksum_good hg12).1
  refine ⟨hlenbs, hmode, huid, hgid, hmtime, ?_, ?_⟩
  · intro hle
    rw [hpres13.1, hpres12.1, hpres11.1, hpres10.1, hprest.1, hpres9.1, hpres8.1, hpres7.1]
    exact hsize.1 hle
  · intro hgt2
    refine ⟨(hsize.2 hgt2).1, ?_, ?_⟩
    · rw [hpres13.2.1, hpres12.2.1, hpres11.2.1, hpres10.2.1, hprest.2.1, hpres9.2.1,
        hpres8.2.1, hpres7.2.1]
      exact (hsize.2 hgt2).2.1
    · rw [hpres13.2.2, hpres12.2.2, hpres11.2.2, hpres10.2.2, hprest.2.2, hpres9.2.2,
        hpres8.2.2, hpres7.2.2]
      exact (hsize.2 hgt2).2.2

/-- C4: for every Track, the header builder either fails with a structured
error (the Except.error branch) or returns exactly 512 bytes; no
LongLink/PAX extension blocks or output of another length is possible. -/
theorem c4_header_512_contract (t : Track) (bs : List Nat)
    (h : build t = Except.ok bs) : bs.length = 512 :=
  (build_ok_spec t bs h).1

theorem c4_header_512_contract_witness :
    ∃ bs, build fileTrack = Except.ok bs ∧ bs.length = 512 :=
  ⟨(build fileTrack).toOption.getD [], by rfl,
    c4_header_512_contract fileTrack _ (by rfl)⟩

/-- C5: in a successfully built header, a size of at most 2 ^ 33 - 1 is
rendered at offset 124 as eleven ASCII octal digits followed by a NUL and
those digits decode to the size; a size of at least 2 ^ 33 sets byte 124 to
0x80 and stores the size in big-endian binary in bytes 125-135, the header
still being 512 bytes long. -/
theorem c5_size_field_encoding (t : Track) (bs : List Nat)
    (h : build t = Except.ok bs) :
    (t.size ≤ 2 ^ 33 - 1 →
      ∃ ds : List Nat, ds.length = 11 ∧ (∀ d ∈ ds, 48 ≤ d ∧ d ≤ 55) ∧
        readSlice bs 124 12 = ds ++ [0] ∧ ofOctalChars ds = t.size) ∧
    (2 ^ 33 ≤ t.size →
      readSlice bs 124 1 = [128] ∧ ofBytesBE (readSlice bs 125 11) = t.size ∧
        bs.length = 512) := by
  have spec := build_ok_spec t bs h
  constructor
  · intro hle
    have hle2 : t.size ≤ 8589934591 := by omega
    have hfield := spec.2.2.2.2.2.1 hle2
    refine ⟨zfillBytes 11 (octalByteDigits t.size), ?_, ?_, ?_, ?_⟩
    · apply length_zfill_of_le
      apply octalByteDigits_length_le (by norm_num)
      have h8 : (8 : Nat) ^ 11 = 8589934592 := by norm_num
      omega
    · intro d hd
      unfold zfillBytes at hd
      rw [List.mem_append] at hd
      rcases hd with hd | hd
      · rw [List.mem_replicate] at hd
        omega
      · have := octalByteDigits_mem hd
        omega
    · rw [hfield]
    · exact ofOctalChars_zfill 11 t.size
  · intro hge
    have hgt : ¬ t.size ≤ 8589934591 := by omega
    obtain ⟨hlt, h124, h125⟩ := spec.2.2.2.2.2.2 hgt
    refine ⟨h124, ?_, spec.1⟩
    rw [h125, ofBytesBE_toBytesBE]
    exact Nat.mod_eq_of_lt hlt

theorem c5_size_field_encoding_witness :
    (fileTrack.size ≤ 2 ^ 33 - 1 ∧
      ∃ ds : List Nat, ds.length = 11 ∧ (∀ d ∈ ds, 48 ≤ d ∧ d ≤ 55) ∧
        readSlice ((build fileTrack).toOption.getD []) 124 12 = ds ++ [0] ∧
        ofOctalChars ds = fileTrack.size) ∧
    (2 ^ 33 ≤ bigTrack.size ∧
      readSlice ((build bigTrack).toOption.getD []) 124 1 = [128] ∧
      ofBytesBE (readSlice ((build bigTrack).toOption.getD []) 125 11) = bigTrack.size ∧
      ((build bigTrack).toOption.getD []).length = 512) := by
  constructor
  · exact ⟨by decide, (c5_size_field_encoding fileTrack _ (by rfl)).1 (by decide)⟩
  · exact ⟨by decide, (c5_size_field_encoding bigTrack _ (by rfl)).2 (by decide)⟩

/-- C10: TarHeader.build raises an error and emits no header whenever a
numeric field value does not fit in its octal field (mode, uid or gid at
least 8 ^ 7 = 2097152, or mtime at least 8 ^ 11). -/
theorem c10_octal_reject (t : Track)
    (h : 8 ^ 7 ≤ t.mode ∨ 8 ^ 7 ≤ t.uid ∨ 8 ^ 7 ≤ t.gid ∨ 8 ^ 11 ≤ t.mtime) :
    ∃ err, build t = Except.error err := by
  cases hb : build t with
  | error e => exact ⟨e, rfl⟩
  | ok bs =>
    exfalso
    have spec := build_ok_spec t bs hb
    have hm := spec.2.1
    have hu := spec.2.2.1
    have hg := spec.2.2.2.1
    have ht := spec.2.2.2.2.1
    rcases h with h | h | h | h <;> omega

theorem c10_octal_reject_witness :
    ∃ err, build bigUidTrack = Except.error err :=
  c10_octal_reject bigUidTrack (Or.inr (Or.inl (by decide)))

/-- Value of the foldl of _split_path's scan loop over the first n
positions. -/
def splitScan (path : List Char) (n : Nat) : Option Nat :=
  (List.range n).foldl (fun best i => if validSplit path i then some i else best) none

theorem splitScan_succ (path : List Char) (n : Nat) :
    splitScan path (n + 1) =
      if validSplit path n then some n else splitScan path n := by
  unfold splitScan
  rw [List.range_succ, List.foldl_append]
  rfl

theorem splitScan_spec (path : List Char) (n : Nat) :
    (splitScan path n = none → ∀ j, j < n → validSplit path j = false) ∧
    (∀ i, splitScan path n = some i →
      validSplit path i = true ∧ i < n ∧
        ∀ j, j < n → i < j → validSplit path j = false) := by
  induction n with
  | zero =>
    constructor
    · intro _ j hj
      omega
    · intro i hi
      exact Option.noConfusion hi
  | succ m ih =>
    rw [splitScan_succ]
    by_cases hv : validSplit path m
    · rw [if_pos hv]
      constructor
      · intro hc
        exact Option.noConfusion hc
      · intro i hi
        rw [Option.some.injEq] at hi
        subst hi
        exact ⟨hv, by omega, fun j hj1 hj2 => by omega⟩
    · rw [if_neg hv]
      constructor
      · intro hn j hj
        rcases Nat.lt_succ_iff_lt_or_eq.mp hj with hj | hj
        · exact (ih.1 hn) j hj
        · subst hj
          exact eq_false_of_ne_true hv
      · intro i hi
        obtain ⟨h1, h2, h3⟩ := ih.2 i hi
        refine ⟨h1, by omega, ?_⟩
        intro j hj1 hj2
        rcases Nat.lt_succ_iff_lt_or_eq.mp hj1 with hj | hj
        · exact h3 j hj hj2
        · subst hj
          exact eq_false_of_ne_true hv

theorem validSplit_lt_length {path : List Char} {i : Nat}
    (h : validSplit path i = true) : i < path.length := by
  by_contra hc
  push_neg at hc
  unfold validSplit at h
  rw [List.getD_eq_default _ _ hc] at h
  simp at h

/-- C6: USTAR path splitting.  A path of at most 100 UTF-8 bytes keeps
name = path and an empty prefix; a longer path is split at the rightmost
slash whose left part is at most 155 bytes and right part at most 100
bytes; when no such slash exists the codec, and hence build, fails with a
structured error instead of producing a header. -/
theorem c6_ustar_path_split (p : List Char) :
    (utf8Len p ≤ 100 → split_path p = Except.ok (p, [])) ∧
    (∀ i, 100 < utf8Len p → validSplit p i = true →
      (∀ j, j < p.length → i < j → validSplit p j = false) →
      split_path p = Except.ok (p.drop (i + 1), p.take i)) ∧
    (100 < utf8Len p → (∀ j, j < p.length → validSplit p j = false) →
      ∃ err, split_path p = Except.error err) ∧
    (∀ t : Track, t.arc_path.data = p → 100 < utf8Len p →
      (∀ j, j < p.length → validSplit p j = false) →
      ∃ err, build t = Except.error err) := by
  have hscan := splitScan_spec p p.length
  have hbest : bestSplitIndex p = splitScan p p.length := rfl
  refine ⟨?_, ?_, ?_, ?_⟩
  · intro hle
    unfold split_path
    rw [if_pos hle]
  · intro i hgt hvalid hmax
    unfold split_path
    rw [if_neg (by omega)]
    rw [hbest]
    cases hs : splitScan p p.length with
    | none =>
      exfalso
      have := (hscan.1 hs) i (validSplit_lt_length hvalid)
      rw [hvalid] at this
      exact Bool.noConfusion this
    | some i2 =>
      obtain ⟨hv2, hlt2, hmax2⟩ := hscan.2 i2 hs
      have hii : i = i2 := by
        rcases Nat.lt_trichotomy i i2 with hlt | heq | hgt2
        · have := hmax i2 hlt2 hlt
          rw [hv2] at this
          exact Bool.noConfusion this
        · exact heq
        · have := hmax2 i (validSplit_lt_length hvalid) hgt2
          rw [hvalid] at this
          exact Bool.noConfusion this
      rw [hii]
  · intro hgt hnone
    unfold split_path
    rw [if_neg (by omega)]
    rw [hbest]
    cases hs : splitScan p p.length with
    | none => exact ⟨_, rfl⟩
    | some i2 =>
      exfalso
      obtain ⟨hv2, hlt2, _⟩ := hscan.2 i2 hs
      have := hnone i2 hlt2
      rw [hv2] at this
      exact Bool.noConfusion this
  · intro t hp hgt hnone
    have herr : ∃ err, split_path p = Except.error err := by
      unfold split_path
      rw [if_neg (by omega)]
      rw [hbest]
      cases hs : splitScan p p.length with
      | none => exact ⟨_, rfl⟩
      | some i2 =>
        exfalso
        obtain ⟨hv2, hlt2, _⟩ := hscan.2 i2 hs
        have := hnone i2 hlt2
        rw [hv2] at this
        exact Bool.noConfusion this
    obtain ⟨err, herr⟩ := herr
    refine ⟨err, ?_⟩
    unfold build
    rw [hp, herr]
    rfl

/-- C7: evaluation of build at the directory track of the repository's own
test test_directory_trailing_slash.  The source computes the
slash-terminated full_arcpath but then splits and renders the bare
arc_path, so the name field of the produced header is my_folder followed
by NUL padding and holds no slash byte anywhere, against the claim (and
the test) that the name ends with a slash. -/
theorem c7_directory_marker_missing :
    dirTrack.is_dir = true ∧
    ∃ bs, build dirTrack = Except.ok bs ∧
      readSlice bs 0 10 = [109, 121, 95, 102, 111, 108, 100, 101, 114, 0] ∧
      (∀ k, k < 100 → (readSlice bs 0 100).getD k 0 ≠ 47) := by
  refine ⟨rfl, (build dirTrack).toOption.getD [], by rfl, by decide, by decide⟩

/-- C8: the stream-time integrity check of _validate_integrity at a file
whose truncated st_mtime (100, from the float 100.5) and st_size both
equal the inventory values: instead of streaming without error, the code
compares the raw float against the stored integer with a 1e-4 tolerance
and raises RuntimeError (not TarIntegrityError). -/
theorem c8_stream_integrity_divergence :
    (∃ st, fracDisk contentTrack.rel_path = some st ∧
      pyInt st.st_mtime = (contentTrack.mtime : Int) ∧ st.st_size = contentTrack.size) ∧
    validate_integrity fracDisk contentTrack =
      Except.error (PyError.runtimeError "File modified (mtime) between inventory and stream") := by
  constructor
  · refine ⟨_, rfl, by decide, rfl⟩
  · rfl

theorem c6_ustar_path_split_witness :
    (∃ err, split_path deadZonePath.data = Except.error err) ∧
    (∃ err, build deadZoneTrack = Except.error err) := by
  have h1 : 100 < utf8Len deadZonePath.data := by decide
  have h2 : ∀ j, j < deadZonePath.data.length → validSplit deadZonePath.data j = false := by
    decide
  exact ⟨(c6_ustar_path_split deadZonePath.data).2.2.1 h1 h2,
    (c6_ustar_path_split deadZonePath.data).2.2.2 deadZoneTrack rfl h1 h2⟩

/-- C2: the claim fails on the code.  On a tape whose every track matches
the inventory on disk (nothing missing, no mtime/size/mode/linkname
drift), _verify does not complete without error: for the first track the
status probe lstat succeeds and player.py line 78 then calls
TarEntryFactory._extract_metadata on the factory class imported from
src/tartape/factory.py, which does not define that method, so an
AttributeError escapes (only FileNotFoundError is caught) and verify —
and with it both play pre-flight paths — raises instead of returning
True. -/
theorem c2_verify_attribute_error :
    (∀ t ∈ [rootDirTrack, contentTrack], matchesInventory smallDisk t) ∧
    verify smallDisk [rootDirTrack, contentTrack] =
      Except.error (PyError.attributeError
        "type object TarEntryFactory has no attribute _extract_metadata") := by
  constructor
  · intro t ht
    rw [List.mem_cons, List.mem_cons] at ht
    rcases ht with rfl | rfl | hc
    · exact ⟨_, rfl, by decide, by decide, by decide, by decide⟩
    · exact ⟨_, rfl, by decide, by decide, by decide, by decide⟩
    · exact absurd hc (List.not_mem_nil t)
  · rfl

theorem total_block_size_eq_ceil (t : Track) :
    total_block_size t = 512 + ceil512 (contentSize t) := by
  unfold total_block_size padding_size ceil512 contentSize has_content TAR_BLOCK_SIZE
  by_cases hd : t.is_dir || t.is_symlink
  · simp only [hd]
    norm_num
  · simp only [hd]
    by_cases hz : t.size = 0
    · simp [hz]
    · simp only [hz, if_false]
      norm_num
      omega

theorem layoutOffsets_cons (off : Nat) (t : Track) (ts : List Track) :
    layoutOffsets off (t :: ts) =
      ({ t with start_offset := off, end_offset := off + total_block_size t } ::
          (layoutOffsets (off + total_block_size t) ts).1,
        (layoutOffsets (off + total_block_size t) ts).2) := rfl

theorem layoutOffsets_spec (ts : List Track) (off : Nat) :
    (layoutOffsets off ts).2 = off + (ts.map total_block_size).sum ∧
    (ts ≠ [] → ((layoutOffsets off ts).1.map Track.start_offset).head? = some off) ∧
    List.Chain' (fun a b => a.end_offset = b.start_offset) (layoutOffsets off ts).1 ∧
    (∀ t ∈ (layoutOffsets off ts).1,
      t.end_offset - t.start_offset = total_block_size t) ∧
    (ts ≠ [] →
      ((layoutOffsets off ts).1.map Track.end_offset).getLast? =
        some (layoutOffsets off ts).2) := by
  induction ts generalizing off with
  | nil =>
    refine ⟨by simp [layoutOffsets], by simp, by simp [layoutOffsets], ?_, by simp⟩
    intro t ht
    simp [layoutOffsets] at ht
  | cons t ts ih =>
    obtain ⟨ihsum, ihhead, ihchain, ihblock, ihlast⟩ := ih (off + total_block_size t)
    refine ⟨?_, ?_, ?_, ?_, ?_⟩
    · rw [layoutOffsets_cons]
      rw [ihsum, List.map_cons, List.sum_cons]
      omega
    · intro _
      rw [layoutOffsets_cons]
      simp
    · rw [layoutOffsets_cons]
      rw [List.chain'_cons']
      refine ⟨?_, ihchain⟩
      intro y hy
      cases hh : (layoutOffsets (off + total_block_size t) ts).1.head? with
      | none =>
        rw [hh] at hy
        exact absurd hy (by simp)
      | some y2 =>
        rw [hh] at hy
        have hyy : y2 = y := by simpa using hy
        subst hyy
        have hne : ts ≠ [] := by
          intro hts
          subst hts
          simp [layoutOffsets] at hh
        have hhd := ihhead hne
        rw [List.head?_map, hh] at hhd
        have hstart : y2.start_offset = off + total_block_size t := by simpa using hhd
        simp [hstart]
    · intro u hu
      rw [layoutOffsets_cons] at hu
      rw [List.mem_cons] at hu
      rcases hu with rfl | hu
      · have hcopy :
            total_block_size
              { t with start_offset := off, end_offset := off + total_block_size t }
              = total_block_size t := rfl
        rw [hcopy]
        simp
      · exact ihblock u hu
    · intro _
      rw [layoutOffsets_cons]
      cases hts : ts with
      | nil =>
        subst hts
        simp [layoutOffsets]
      | cons t2 ts2 =>
        subst hts
        have hne : (t2 :: ts2) ≠ [] := List.cons_ne_nil _ _
        have hlast := ihlast hne
        rw [List.map_cons]
        have hmapne :
            (layoutOffsets (off + total_block_size t) (t2 :: ts2)).1.map Track.end_offset ≠ [] := by
          intro hc
          have hhd := ihhead hne
          rw [List.head?_map] at hhd
          rw [List.map_eq_nil_iff.mp hc] at hhd
          simp at hhd
        cases hm : (layoutOffsets (off + total_block_size t) (t2 :: ts2)).1.map Track.end_offset with
        | nil => exact absurd hm hmapne
        | cons b l =>
          rw [hm] at hlast
          rw [List.getLast?_cons_cons]
          exact hlast

/-- C3: layout invariant established by commit.  Over any nonempty track
list taken in the order commit processes it (ascending arc_path), the first
start_offset is 0, each end_offset equals the next start_offset, every
track occupies 512 + padded(content_size) bytes where padded rounds up to
a multiple of 512 and content_size is the size for regular files and 0 for
directories and symlinks, and the stored total_size is the last end_offset
plus 1024. -/
theorem c3_layout_invariant (ts : List Track) (h : ts ≠ []) :
    (((commitLayout ts).1.map Track.start_offset).head? = some 0) ∧
    List.Chain' (fun a b => a.end_offset = b.start_offset) (commitLayout ts).1 ∧
    (∀ t ∈ (commitLayout ts).1,
      t.end_offset - t.start_offset = 512 + ceil512 (contentSize t)) ∧
    (∃ last, ((commitLayout ts).1.map Track.end_offset).getLast? = some last ∧
      (commitLayout ts).2 = last + 1024) := by
  obtain ⟨hsum, hhead, hchain, hblock, hlast⟩ := layoutOffsets_spec ts 0
  refine ⟨hhead h, hchain, ?_, ?_⟩
  · intro t ht
    rw [← total_block_size_eq_ceil]
    exact hblock t ht
  · refine ⟨(layoutOffsets 0 ts).2, hlast h, ?_⟩
    unfold commitLayout TAR_FOOTER_SIZE
    rfl

theorem c3_layout_invariant_witness :
    (((commitLayout [rawDirTrack, rawFileTrack]).1.map Track.start_offset).head? = some 0) ∧
    List.Chain' (fun a b => a.end_offset = b.start_offset)
      (commitLayout [rawDirTrack, rawFileTrack]).1 ∧
    (∀ t ∈ (commitLayout [rawDirTrack, rawFileTrack]).1,
      t.end_offset - t.start_offset = 512 + ceil512 (contentSize t)) ∧
    (∃ last,
      ((commitLayout [rawDirTrack, rawFileTrack]).1.map Track.end_offset).getLast? = some last ∧
      (commitLayout [rawDirTrack, rawFileTrack]).2 = last + 1024) :=
  c3_layout_invariant [rawDirTrack, rawFileTrack] (by decide)

theorem emit_header_count {e : Track} {skip : Nat} {evs : List TarEvent}
    (h : emit_header e skip = Except.ok evs) : evs.countP isFileStart = 0 := by
  simp only [emit_header] at h
  by_cases hc : e.start_offset + TAR_BLOCK_SIZE ≤ skip
  · rw [if_pos hc] at h
    rw [← ok_inj h]
    rfl
  · rw [if_neg hc] at h
    obtain ⟨hb, _, h⟩ := bind_ok h
    rw [← ok_inj h]
    by_cases he : (hb.drop (skip - e.start_offset)).isEmpty
    · rw [if_pos he]
      rfl
    · rw [if_neg he]
      rfl

theorem stream_content_count {disk : Disk} {e : Track} {skip chunk : Nat}
    {evs : List TarEvent} {b : Bool}
    (h : stream_file_content_safely disk e skip chunk = Except.ok (evs, b)) :
    evs.countP isFileStart = 0 := by
  simp only [stream_file_content_safely] at h
  by_cases hc : e.start_offset + TAR_BLOCK_SIZE + e.size ≤ skip
  · rw [if_pos hc] at h
    have := ok_inj h
    rw [← (Prod.mk.injEq _ _ _ _).mp this |>.1]
    rfl
  · rw [if_neg hc] at h
    obtain ⟨u, _, h⟩ := bind_ok h
    cases hd : disk e.rel_path with
    | none =>
      rw [hd] at h
      exact Except.noConfusion h
    | some st =>
      rw [hd] at h
      obtain ⟨chunks, _, h⟩ := bind_ok h
      by_cases hg : (skip - (e.start_offset + TAR_BLOCK_SIZE) = 0 ∧
          ((st.content.drop e.size).isEmpty = false))
      · rw [if_pos (by simpa using hg)] at h
        exact Except.noConfusion h
      · rw [if_neg (by simpa using hg)] at h
        have := ok_inj h
        rw [← (Prod.mk.injEq _ _ _ _).mp this |>.1]
        rw [List.countP_eq_zero]
        intro a ha
        rw [List.mem_map] at ha
        obtain ⟨c, _, hc2⟩ := ha
        rw [← hc2]
        simp [isFileStart]

theorem emit_padding_count (e : Track) (skip : Nat) :
    (emit_padding e skip).countP isFileStart = 0 := by
  simp only [emit_padding]
  split
  · rfl
  · split
    · rfl
    · rfl

theorem emit_tape_footer_count (skip fs : Nat) :
    (emit_tape_footer skip fs).countP isFileStart = 0 := by
  simp only [emit_tape_footer]
  split
  · rfl
  · split
    · rfl
    · rfl

theorem stream_entry_count {disk : Disk} {e : Track} {skip chunk : Nat}
    {evs : List TarEvent} (h : stream_entry disk e skip chunk = Except.ok evs) :
    evs.countP isFileStart = if skip ≤ e.start_offset then 1 else 0 := by
  simp only [stream_entry] at h
  obtain ⟨hdr, hhdr, h⟩ := bind_ok h
  have hstart :
      (if skip ≤ e.start_offset then [TarEvent.fileStart e.arc_path e.start_offset] else
        ([] : List TarEvent)).countP isFileStart = if skip ≤ e.start_offset then 1 else 0 := by
    by_cases hs : skip ≤ e.start_offset
    · rw [if_pos hs, if_pos hs]
      rfl
    · rw [if_neg hs, if_neg hs]
      rfl
  by_cases hcont : entry_has_content e
  · rw [if_pos hcont] at h
    obtain ⟨cm, hcm, h⟩ := bind_ok h
    obtain ⟨cevs, cb⟩ := cm
    rw [← ok_inj h]
    rw [List.countP_append, List.countP_append, List.countP_append, List.countP_append]
    rw [emit_header_count hhdr, emit_padding_count, stream_content_count hcm, hstart]
    rfl
  · rw [if_neg hcont] at h
    rw [← ok_inj h]
    rw [List.countP_append, List.countP_append]
    rw [emit_header_count hhdr, hstart]
    rfl

theorem stream_go_count {disk : Disk} {skip chunk : Nat} :
    ∀ {es : List Track} {last : Nat} {r : List TarEvent × Nat},
    stream_go disk skip chunk es last = Except.ok r →
    r.1.countP isFileStart =
      (es.filter (fun e => skip < e.end_offset && skip ≤ e.start_offset)).length := by
  intro es
  induction es with
  | nil =>
    intro last r h
    rw [← ok_inj h]
    rfl
  | cons e es ih =>
    intro last r h
    unfold stream_go at h
    by_cases hskip : e.end_offset ≤ skip
    · rw [if_pos hskip] at h
      rw [ih h]
      rw [List.filter_cons]
      have hf : (decide (skip < e.end_offset) && decide (skip ≤ e.start_offset)) = false := by
        have hlt : ¬ skip < e.end_offset := by omega
        simp [hlt]
      simp only [hf, Bool.false_eq_true, if_false]
    · rw [if_neg hskip] at h
      obtain ⟨evs, hevs, h⟩ := bind_ok h
      obtain ⟨rest, hrest, h⟩ := bind_ok h
      rw [← ok_inj h]
      simp only [List.countP_append]
      rw [stream_entry_count hevs, ih hrest]
      rw [List.filter_cons]
      by_cases hs : skip ≤ e.start_offset
      · have hf : (decide (skip < e.end_offset) && decide (skip ≤ e.start_offset)) = true := by
          have hlt : skip < e.end_offset := by omega
          simp [hlt, hs]
        simp only [hf, if_pos hs, if_true, List.length_cons]
        omega
      · have hf : (decide (skip < e.end_offset) && decide (skip ≤ e.start_offset)) = false := by
          simp [hs]
        simp only [hf, if_neg hs, Bool.false_eq_true, if_false]
        omega

/-- C9 amended: the engine emits one FILE_START per track whose start lies
at or after the resume offset (among tracks reached at all); a track the
resume offset falls strictly inside gets no FILE_START, and the event
carries only the track and its start_offset (there is no resumed flag in
the schema). -/
theorem c9_file_start_only_at_track_start (disk : Disk) (entries : List Track)
    (skip chunk : Nat) (evs : List TarEvent)
    (h : stream disk entries skip chunk = Except.ok evs) :
    evs.countP isFileStart =
      (entries.filter (fun e => skip < e.end_offset && skip ≤ e.start_offset)).length := by
  unfold stream at h
  obtain ⟨r, hr, h⟩ := bind_ok h
  rw [← ok_inj h]
  rw [List.countP_append, List.countP_append]
  rw [stream_go_count hr, emit_tape_footer_count]
  rfl

theorem c9_file_start_only_at_track_start_witness :
    ((stream smallDisk [rootDirTrack] 0 65536).toOption.getD []).countP isFileStart =
      ([rootDirTrack].filter
        (fun e => 0 < e.end_offset && 0 ≤ e.start_offset)).length :=
  c9_file_start_only_at_track_start smallDisk [rootDirTrack] 0 65536 _ (by rfl)

/-- C9 counterexample: a track whose end_offset exceeds the resume offset
100 (so by the claim a FILE_START with a resumed flag should be emitted),
yet the stream produced by the engine contains no FILE_START event at
all. -/
theorem c9_no_file_start_mid_track :
    100 < rootDirTrack.end_offset ∧
    ∃ evs, stream smallDisk [rootDirTrack] 100 65536 = Except.ok evs ∧
      evs.countP isFileStart = 0 :=
  ⟨by decide, (stream smallDisk [rootDirTrack] 100 65536).toOption.getD [],
    by rfl, by decide⟩

/-- C1: bit-perfect resume fails on the code, twice over.  First, play
itself never yields the claimed byte stream on this committed tape of one
directory track: its pre-flight verification calls the missing
TarEntryFactory._extract_metadata (player.py line 78) and raises
AttributeError at every resume offset, play(0) included.  Second, the
resume composition play hands to the engine — the query end_offset >
start_offset followed by stream (player.py lines 161-174) — loses the
footer even on its own: over the full layout (512-byte header then the
1024-byte footer, total_size 1536) it reproduces the suffix from byte 100
exactly, but at offset 1024 — inside the footer region, allowed by the
claim since 1024 < total_size — the query returns no tracks, the engine's
last_offset stays 0, the footer window is computed from 0 instead of 512,
and the 512 NUL bytes of the true suffix are lost. -/
theorem c1_footer_resume_lost :
    play smallDisk [rootDirTrack] 1536 0 65536 =
      Except.error (PyError.attributeError
        "type object TarEntryFactory has no attribute _extract_metadata") ∧
    play smallDisk [rootDirTrack] 1536 1024 65536 =
      Except.error (PyError.attributeError
        "type object TarEntryFactory has no attribute _extract_metadata") ∧
    ∃ hdr,
      build rootDirTrack = Except.ok hdr ∧
      stream smallDisk (playQuery [rootDirTrack] 0) 0 65536 =
        Except.ok [TarEvent.fileStart "d" 0, TarEvent.fileData hdr (some "d"),
          TarEvent.fileEnd "d" 512 false,
          TarEvent.fileData (List.replicate 1024 0) none, TarEvent.tapeCompleted] ∧
      stream smallDisk (playQuery [rootDirTrack] 100) 100 65536 =
        Except.ok [TarEvent.fileData (hdr.drop 100) (some "d"),
          TarEvent.fileEnd "d" 512 false,
          TarEvent.fileData (List.replicate 1024 0) none, TarEvent.tapeCompleted] ∧
      stream smallDisk (playQuery [rootDirTrack] 1024) 1024 65536 =
        Except.ok [TarEvent.tapeCompleted] ∧
      (concatData [TarEvent.fileStart "d" 0, TarEvent.fileData hdr (some "d"),
          TarEvent.fileEnd "d" 512 false,
          TarEvent.fileData (List.replicate 1024 0) none, TarEvent.tapeCompleted]).length
        = 1536 ∧
      concatData [TarEvent.fileData (hdr.drop 100) (some "d"),
          TarEvent.fileEnd "d" 512 false,
          TarEvent.fileData (List.replicate 1024 0) none, TarEvent.tapeCompleted]
        = (concatData [TarEvent.fileStart "d" 0, TarEvent.fileData hdr (some "d"),
            TarEvent.fileEnd "d" 512 false,
            TarEvent.fileData (List.replicate 1024 0) none,
            TarEvent.tapeCompleted]).drop 100 ∧
      (concatData [TarEvent.fileStart "d" 0, TarEvent.fileData hdr (some "d"),
          TarEvent.fileEnd "d" 512 false,
          TarEvent.fileData (List.replicate 1024 0) none,
          TarEvent.tapeCompleted]).drop 1024 = List.replicate 512 0 ∧
      concatData [TarEvent.tapeCompleted] = [] := by
  refine ⟨by rfl, by rfl,
    (build rootDirTrack).toOption.getD [], by rfl, by rfl, by rfl, by rfl, ?_, ?_, ?_, rfl⟩
  · have hlen : ((build rootDirTrack).toOption.getD []).length = 512 :=
      (build_ok_spec rootDirTrack _ (by rfl)).1
    simp [concatData, dataBytes, hlen]
  · have hlen : ((build rootDirTrack).toOption.getD []).length = 512 :=
      (build_ok_spec rootDirTrack _ (by rfl)).1
    simp only [concatData, List.flatMap_cons, List.flatMap_nil, dataBytes,
      List.append_nil, List.nil_append]
    rw [List.drop_append_eq_append_drop, hlen]
    norm_num
  · have hlen : ((build rootDirTrack).toOption.getD []).length = 512 :=
      (build_ok_spec rootDirTrack _ (by rfl)).1
    simp only [concatData, List.flatMap_cons, List.flatMap_nil, dataBytes,
      List.append_nil, List.nil_append]
    rw [List.drop_append_eq_append_drop, hlen,
      List.drop_eq_nil_of_le (by rw [hlen]; norm_num), List.drop_replicate]
    norm_num

end Tartape
